import Mathlib

/-!
Shallow embedding of the pipeline in `src/agents_minimal.py` (module
`agents_minimal`): the configuration object, the four agent
transformations, the fixed six-stage pipeline driven by
`LoadBalancer.distribute`, and the public entry point `Orchestrator.run`.

Strings are modelled as `List Char` (a Python `str` is a sequence of
characters); `String` literals are converted with `.data` for readability.
Python `str.split()` / `str.strip()` whitespace is modelled by the ASCII
whitespace characters, which cover every string manipulated here.
Wall-clock timing (`processing_time_ms`), generated UUIDs and timestamps
are nondeterministic environment effects and are left out of the
deterministic data model: `request_id` is taken as a caller-supplied
value, and the parser's `id` / `timestamp` / constant `metadata` fields
are dropped because nothing downstream reads them.  Console `print`
output is likewise dropped; the order in which the six pipeline stages
are invoked is recorded explicitly as a trace of stage indices, so that
ordering claims are statable.
-/

set_option autoImplicit false

namespace AgentStack

/-- The whitespace test used by Python `str.split()` / `str.strip()`
(restricted to the ASCII whitespace characters). -/
def isPySpace (c : Char) : Bool :=
  c == ' ' || c == '\t' || c == '\n' || c == '\r' || c == '\x0b' || c == '\x0c'

/-- Worker for `splitWs`: `acc` holds the (reversed) word being read. -/
def splitWsAux : List Char → List Char → List (List Char)
  | [], acc => if acc = [] then [] else [acc.reverse]
  | c :: rest, acc =>
    if isPySpace c then
      if acc = [] then splitWsAux rest [] else acc.reverse :: splitWsAux rest []
    else
      splitWsAux rest (c :: acc)

/-- Python `content.split()` (no separator argument): whitespace-delimited
words, with runs of whitespace collapsed and no empty words. -/
def splitWs (s : List Char) : List (List Char) :=
  splitWsAux s []

/-- Python `' '.join(words)`. -/
def joinWords : List (List Char) → List Char
  | [] => []
  | [w] => w
  | w :: ws => w ++ ' ' :: joinWords ws

/-- Python `s.replace('\n\n\n', ' ')`: left-to-right, non-overlapping
scan, specialised to the three-character pattern. -/
def replaceNNN : List Char → List Char
  | a :: b :: c :: rest =>
    if a = '\n' ∧ b = '\n' ∧ c = '\n' then ' ' :: replaceNNN rest
    else a :: replaceNNN (b :: c :: rest)
  | s => s

/-- Python `s.replace('\t\t', ' ')`. -/
def replaceTT : List Char → List Char
  | a :: b :: rest =>
    if a = '\t' ∧ b = '\t' then ' ' :: replaceTT rest
    else a :: replaceTT (b :: rest)
  | s => s

/-- Python `s.replace('  ', ' ')` (two spaces collapsed to one). -/
def replaceSS : List Char → List Char
  | a :: b :: rest =>
    if a = ' ' ∧ b = ' ' then ' ' :: replaceSS rest
    else a :: replaceSS (b :: rest)
  | s => s

/-- Remove leading Python whitespace. -/
def stripLeft : List Char → List Char
  | [] => []
  | c :: rest => if isPySpace c then stripLeft rest else c :: rest

/-- Python `s.strip()`: remove leading and trailing whitespace. -/
def strip (s : List Char) : List Char :=
  ((stripLeft ((stripLeft s).reverse)).reverse)

/-- Membership of a character in the tuple `('.', '!', '?')`. -/
def sentencePunct (c : Char) : Bool :=
  c == '.' || c == '!' || c == '?'

/-- Python `s.endswith(('.', '!', '?'))`. -/
def endsPunct (s : List Char) : Bool :=
  match s.getLast? with
  | some c => sentencePunct c
  | none => false

/-- `OptimizerAgent._optimize_content` (agents_minimal.py lines 151-162):
collapse whitespace via split/join, apply the three noise-pattern
replacements, append a period when the result is non-empty and does not
already end in sentence punctuation, and strip. -/
def optimizeContent (content : List Char) : List Char :=
  let optimized := joinWords (splitWs content)
  let optimized := replaceSS (replaceTT (replaceNNN optimized))
  let optimized :=
    if optimized ≠ [] ∧ endsPunct optimized = false then optimized ++ ['.']
    else optimized
  strip optimized

/-- Python slicing `s[:k]` for an arbitrary (possibly negative) `k`. -/
def pyTake (s : List Char) (k : Int) : List Char :=
  if 0 ≤ k then s.take k.toNat else s.take ((s.length : Int) + k).toNat

/-- Python `content.split('.')`: the result always has at least one part;
its length exceeds 1 exactly when the separator occurs. -/
def splitDot : List Char → List (List Char)
  | [] => [[]]
  | c :: rest =>
    if c = '.' then [] :: splitDot rest
    else
      match splitDot rest with
      | [] => [[c]]
      | w :: ws => (c :: w) :: ws

/-- The `Settings` object of agents_minimal.py (lines 10-26), restricted
to the four fields the pipeline path reads; the defaults are the source's
literal values. -/
structure Settings where
  max_summary_length : Nat := 100
  enable_optimization : Bool := true
  max_input_size : Nat := 10000
  enable_input_validation : Bool := true

/-- The module-level `settings = Settings()` instance. -/
def settings : Settings := {}

/-- The fields of the parser's output dictionary that carry request data
(`id` / `timestamp` / `metadata` are generated or constant and unread). -/
structure ParsedData where
  content : List Char
  length : Nat
  word_count : Nat

/-- The f-string `f"Data too large. Maximum {settings.max_input_size} characters allowed."`. -/
def sizeErrorMessage (cfg : Settings) : List Char :=
  "Data too large. Maximum ".data ++ (toString cfg.max_input_size).data
    ++ " characters allowed.".data

/-- `DataParserAgent._process_impl` (lines 78-98).  The `isinstance(data, str)`
check is a compile-time guarantee of the embedding's types; the size check
raises `ValueError`, modelled as `Except.error` with the message text. -/
def dataParserProcess (cfg : Settings) (data : List Char) :
    Except (List Char) ParsedData :=
  if cfg.max_input_size < data.length then .error (sizeErrorMessage cfg)
  else .ok { content := data, length := data.length,
             word_count := (splitWs data).length }

/-- `SummarizerAgent._create_summary` (lines 124-134). -/
def createSummary (content : List Char) (max_length : Nat) : List Char :=
  let sentences := splitDot content
  if sentences.length ≤ 1 then pyTake content (max_length : Int)
  else
    let summary := strip (sentences.headD [])
    if max_length < summary.length then
      pyTake summary ((max_length : Int) - 3) ++ '.' :: '.' :: ['.']
    else summary

/-- `SummarizerAgent._process_impl` (lines 107-122): the word count is
compared against `max_summary_length`; short content passes through
unchanged. -/
def summarizerProcess (cfg : Settings) (data : ParsedData) : List Char :=
  let content := data.content
  if content = [] then []
  else
    let words := splitWs content
    if words.length ≤ cfg.max_summary_length then content
    else createSummary content cfg.max_summary_length

/-- `OptimizerAgent._process_impl` (lines 143-149). -/
def optimizerProcess (cfg : Settings) (content : List Char) : List Char :=
  if cfg.enable_optimization then optimizeContent content else content

/-- `LoggerAgent._process_impl` (lines 171-179): prints and returns
`None`; it cannot fail. -/
def loggerProcess (_message : List Char) : Except (List Char) Unit :=
  .ok ()

/-- Checkpoint message of pipeline step 2 (line 214). -/
def parsedMessage (rid : List Char) : List Char :=
  "Data parsed successfully for request ".data ++ rid

/-- Checkpoint message of pipeline step 4 (line 221). -/
def summarizedMessage (rid : List Char) : List Char :=
  "Content summarized for request ".data ++ rid

/-- Checkpoint message of pipeline step 6 (line 228). -/
def completedMessage (rid : List Char) : List Char :=
  "Processing completed for request ".data ++ rid

/-- `ProcessingRequest` (lines 29-33), with `request_id` caller-supplied. -/
structure ProcessingRequest where
  content : List Char
  request_id : List Char

/-- `ProcessingResponse` (lines 36-45), without the wall-clock
`processing_time_ms` field; the constructor defaults mirror the source
(`success=True`, `error_message=None`). -/
structure ProcessingResponse where
  request_id : List Char
  processed_content : List Char
  summary : List Char
  success : Bool := true
  error_message : Option (List Char) := none

/-- The failure response built in the `except` branch of
`LoadBalancer.distribute` (lines 243-250). -/
def failureResponse (rid e : List Char) : ProcessingResponse :=
  { request_id := rid, processed_content := [], summary := [],
    success := false, error_message := some e }

/-- The six agent slots created by `AgentFactory.create_agents`
(lines 185-195), in pipeline order: each slot is the corresponding
`_process_impl`, which may raise (`Except.error`).  The `LoadBalancer`
is constructed over an arbitrary such list. -/
structure Agents where
  parse : List Char → Except (List Char) ParsedData
  logParsed : List Char → Except (List Char) Unit
  summarize : ParsedData → Except (List Char) (List Char)
  logSummarized : List Char → Except (List Char) Unit
  optimize : List Char → Except (List Char) (List Char)
  logCompleted : List Char → Except (List Char) Unit

/-- `AgentFactory.create_agents()` applied to the concrete agent classes. -/
def createAgents (cfg : Settings) : Agents where
  parse := dataParserProcess cfg
  logParsed := loggerProcess
  summarize := fun d => .ok (summarizerProcess cfg d)
  logSummarized := loggerProcess
  optimize := fun s => .ok (optimizerProcess cfg s)
  logCompleted := loggerProcess

/-- `LoadBalancer.distribute` (lines 204-250): the six sequential stage
invocations inside one `try`; the first raised error aborts the sequence
and is converted into a failure response.  The second component records
the indices (0-5) of the stages invoked, in invocation order. -/
def distribute (agents : Agents) (request : ProcessingRequest) :
    ProcessingResponse × List Nat :=
  match agents.parse request.content with
  | .error e => (failureResponse request.request_id e, [0])
  | .ok parsed_data =>
  match agents.logParsed (parsedMessage request.request_id) with
  | .error e => (failureResponse request.request_id e, [0, 1])
  | .ok _ =>
  match agents.summarize parsed_data with
  | .error e => (failureResponse request.request_id e, [0, 1, 2])
  | .ok summary =>
  match agents.logSummarized (summarizedMessage request.request_id) with
  | .error e => (failureResponse request.request_id e, [0, 1, 2, 3])
  | .ok _ =>
  match agents.optimize summary with
  | .error e => (failureResponse request.request_id e, [0, 1, 2, 3, 4])
  | .ok optimized_content =>
  match agents.logCompleted (completedMessage request.request_id) with
  | .error e => (failureResponse request.request_id e, [0, 1, 2, 3, 4, 5])
  | .ok _ =>
  ({ request_id := request.request_id,
     processed_content := optimized_content,
     summary := summary }, [0, 1, 2, 3, 4, 5])

/-- The `ValueError` message of `Orchestrator.run`'s validation (line 265). -/
def validationErrorMessage : List Char :=
  "Content must be a non-empty string".data

/-- `Orchestrator.run` (lines 260-282): with validation enabled, empty
content raises before a request is built (`Except.error`, empty trace);
otherwise the pipeline result is returned as a value.  The non-string
branch of the check is a compile-time guarantee here; the outer
`try/except` re-raises unchanged. -/
def run (cfg : Settings) (content : List Char) (request_id : List Char) :
    Except (List Char) ProcessingResponse × List Nat :=
  if cfg.enable_input_validation = true ∧ content = [] then
    (.error validationErrorMessage, [])
  else
    let result := distribute (createAgents cfg)
      { content := content, request_id := request_id }
    (.ok result.1, result.2)

/-- Absence of two consecutive spaces, the occurrence condition of the
noise pattern `'  '`. -/
def noDoubleSpace : List Char → Bool
  | [] => true
  | [_] => true
  | a :: b :: rest => !(a == ' ' && b == ' ') && noDoubleSpace (b :: rest)

/-- The Summarizer as claim C7 words it: the first-sentence candidate is
the raw content up to the first `'.'` (no whitespace stripping), with the
no-terminator and ellipsis branches as stated.  Written from the claim's
words, to be compared with `summarizerProcess`. -/
def claimSummarize (cfg : Settings) (content : List Char) : List Char :=
  if content = [] then []
  else if (splitWs content).length ≤ cfg.max_summary_length then content
  else
    let candidate :=
      if '.' ∈ content then content.takeWhile (fun c => !(c == '.'))
      else content.take cfg.max_summary_length
    if cfg.max_summary_length < candidate.length then
      candidate.take (cfg.max_summary_length - 3) ++ '.' :: '.' :: ['.']
    else candidate

/-- Claim C7 amended: identical to `claimSummarize` except that the
first-sentence candidate is stripped of surrounding whitespace before the
length test, which is what the code's `sentences[0].strip()` does. -/
def amendedSummarize (cfg : Settings) (content : List Char) : List Char :=
  if content = [] then []
  else if (splitWs content).length ≤ cfg.max_summary_length then content
  else
    let candidate :=
      if '.' ∈ content then strip (content.takeWhile (fun c => !(c == '.')))
      else content.take cfg.max_summary_length
    if cfg.max_summary_length < candidate.length then
      candidate.take (cfg.max_summary_length - 3) ++ '.' :: '.' :: ['.']
    else candidate

/-- Scenario input of claim C9. -/
def helloInput : List Char := "Hello   world.\n\n\n".data

/-- Counterexample input for claim C7: more than 100 words, and a first
sentence that begins with a space (`" a. b b ... b "`). -/
def c7Input : List Char :=
  ' ' :: 'a' :: '.' :: ' ' :: (List.replicate 101 ['b', ' ']).flatten

/-- Witness input with 101 whitespace-delimited words. -/
def c10Input : List Char := joinWords (List.replicate 101 ['b'])

/-- A configuration with a small input-size bound, for exercising the
parser's size failure on a short input. -/
def tinySettings : Settings := { max_input_size := 2 }

/-- The default configuration with optimization disabled (claim C8's
scenario). -/
def noOptSettings : Settings := { enable_optimization := false }

/-- A word list as produced by `splitWs`: every word is non-empty and
contains no whitespace. -/
def GoodWords (ws : List (List Char)) : Prop :=
  ∀ w ∈ ws, w ≠ [] ∧ ∀ c ∈ w, isPySpace c = false

theorem splitWsAux_goodWords (s : List Char) :
    ∀ acc : List Char, (∀ c ∈ acc, isPySpace c = false) →
      GoodWords (splitWsAux s acc) := by
  induction s with
  | nil =>
    intro acc hacc
    intro w hw
    simp only [splitWsAux] at hw
    split at hw
    · simp at hw
    · next hne =>
      simp only [List.mem_singleton] at hw
      subst hw
      refine ⟨by simpa using hne, ?_⟩
      intro c hc
      exact hacc c (by simpa using hc)
  | cons c rest ih =>
    intro acc hacc
    intro w hw
    simp only [splitWsAux] at hw
    split at hw
    · split at hw
      · exact ih [] (by simp) w hw
      · next hne =>
        rcases List.mem_cons.mp hw with h | h
        · subst h
          refine ⟨by simpa using hne, ?_⟩
          intro d hd
          exact hacc d (by simpa using hd)
        · exact ih [] (by simp) w h
    · next hc =>
      refine ih (c :: acc) ?_ w hw
      intro d hd
      rcases List.mem_cons.mp hd with h | h
      · subst h; simpa using hc
      · exact hacc d h

theorem goodWords_splitWs (s : List Char) : GoodWords (splitWs s) :=
  splitWsAux_goodWords s [] (by simp)

theorem splitWsAux_eq_nil_iff (s : List Char) :
    ∀ acc : List Char,
      splitWsAux s acc = [] ↔ (acc = [] ∧ ∀ c ∈ s, isPySpace c = true) := by
  induction s with
  | nil =>
    intro acc
    simp only [splitWsAux]
    split <;> simp_all
  | cons c rest ih =>
    intro acc
    simp only [splitWsAux]
    split
    · next hc =>
      split
      · next hacc =>
        subst hacc
        simpa [hc] using ih []
      · simp_all
    · next hc =>
      rw [ih (c :: acc)]
      simp only [List.mem_cons]
      constructor
      · rintro ⟨h, -⟩; cases h
      · rintro ⟨-, hall⟩
        exact absurd (hall c (Or.inl rfl)) (by simpa using hc)

theorem splitWs_eq_nil_iff (s : List Char) :
    splitWs s = [] ↔ ∀ c ∈ s, isPySpace c = true := by
  simpa using splitWsAux_eq_nil_iff s []

theorem splitWsAux_word_append (w : List Char) (hw : ∀ c ∈ w, isPySpace c = false) :
    ∀ (s acc : List Char),
      splitWsAux (w ++ s) acc = splitWsAux s (w.reverse ++ acc) := by
  induction w with
  | nil => intro s acc; simp
  | cons c w' ih =>
    intro s acc
    have hc : isPySpace c = false := hw c (List.mem_cons_self c w')
    simp only [List.cons_append, splitWsAux, hc]
    rw [if_neg (by simp)]
    show splitWsAux (w' ++ s) (c :: acc) = _
    rw [ih (fun d hd => hw d (List.mem_cons_of_mem c hd)) s (c :: acc)]
    simp [List.append_assoc]

/-- `joinWords` on a cons with a non-empty tail. -/
theorem joinWords_cons_of_ne_nil (w : List Char) {ws : List (List Char)}
    (h : ws ≠ []) : joinWords (w :: ws) = w ++ ' ' :: joinWords ws := by
  cases ws with
  | nil => cases h rfl
  | cons b t => rfl

/-- Splitting on whitespace undoes joining a good word list: the
round-trip at the heart of the optimizer's normal form. -/
theorem splitWs_joinWords : ∀ ws : List (List Char), GoodWords ws →
    splitWs (joinWords ws) = ws := by
  intro ws
  induction ws with
  | nil => intro _; rfl
  | cons w rest ih =>
    intro hg
    have hw : w ≠ [] ∧ ∀ c ∈ w, isPySpace c = false := hg w (List.mem_cons_self w rest)
    have hrest : GoodWords rest := fun u hu => hg u (List.mem_cons_of_mem w hu)
    cases rest with
    | nil =>
      show splitWsAux (joinWords [w]) [] = [w]
      have : joinWords [w] = w ++ [] := by simp [joinWords]
      rw [this, splitWsAux_word_append w hw.2]
      simp only [splitWsAux, List.append_nil]
      rw [if_neg (by simpa using hw.1)]
      simp
    | cons b t =>
      show splitWsAux (joinWords (w :: b :: t)) [] = w :: b :: t
      rw [joinWords_cons_of_ne_nil w (by simp)]
      rw [splitWsAux_word_append w hw.2]
      simp only [splitWsAux, isPySpace]
      rw [if_pos (by simp)]
      rw [if_neg (by simpa using hw.1)]
      simpa using ih hrest

/-- Every character of a joined word list is a separator space or a word
character. -/
theorem mem_joinWords {c : Char} : ∀ ws : List (List Char),
    c ∈ joinWords ws → c = ' ' ∨ ∃ w ∈ ws, c ∈ w := by
  intro ws
  induction ws with
  | nil => intro h; simp [joinWords] at h
  | cons w rest ih =>
    intro h
    cases rest with
    | nil =>
      right
      exact ⟨w, List.mem_singleton_self w, by simpa [joinWords] using h⟩
    | cons b t =>
      rw [joinWords_cons_of_ne_nil w (by simp)] at h
      rcases List.mem_append.mp h with h | h
      · exact Or.inr ⟨w, List.mem_cons_self w _, h⟩
      · rcases List.mem_cons.mp h with h | h
        · exact Or.inl h
        · rcases ih h with h | ⟨u, hu, hc⟩
          · exact Or.inl h
          · exact Or.inr ⟨u, List.mem_cons_of_mem w hu, hc⟩

/-- A joined good word list starting at a word begins with a non-space
character. -/
theorem joinWords_cons_shape {w : List Char} {ws : List (List Char)}
    (hg : GoodWords (w :: ws)) :
    ∃ a l, joinWords (w :: ws) = a :: l ∧ isPySpace a = false := by
  have hw := hg w (List.mem_cons_self w ws)
  obtain ⟨a, w', rfl⟩ := List.exists_cons_of_ne_nil hw.1
  have ha : isPySpace a = false := hw.2 a (List.mem_cons_self a w')
  cases ws with
  | nil => exact ⟨a, w', rfl, ha⟩
  | cons b t =>
    exact ⟨a, w' ++ ' ' :: joinWords (b :: t),
      by rw [joinWords_cons_of_ne_nil _ (by simp)]; rfl, ha⟩

theorem joinWords_ne_nil {ws : List (List Char)} (hg : GoodWords ws)
    (hne : ws ≠ []) : joinWords ws ≠ [] := by
  obtain ⟨w, t, rfl⟩ := List.exists_cons_of_ne_nil hne
  obtain ⟨a, l, heq, -⟩ := joinWords_cons_shape hg
  simp [heq]

/-- The last character of a joined good word list is a word character. -/
theorem joinWords_getLast? {ws : List (List Char)} (hg : GoodWords ws)
    (hne : ws ≠ []) :
    ∃ c, (joinWords ws).getLast? = some c ∧ isPySpace c = false := by
  induction ws with
  | nil => cases hne rfl
  | cons w rest ih =>
    have hw := hg w (List.mem_cons_self w rest)
    cases rest with
    | nil =>
      refine ⟨w.getLast hw.1, ?_, hw.2 _ (List.getLast_mem hw.1)⟩
      simpa [joinWords] using List.getLast?_eq_getLast_of_ne_nil hw.1
    | cons b t =>
      obtain ⟨c, hc, hcs⟩ := ih (fun u hu => hg u (List.mem_cons_of_mem w hu)) (by simp)
      refine ⟨c, ?_, hcs⟩
      have hjoin : joinWords (b :: t) ≠ [] :=
        joinWords_ne_nil (fun u hu => hg u (List.mem_cons_of_mem w hu)) (by simp)
      rw [joinWords_cons_of_ne_nil w (by simp)]
      rw [show w ++ ' ' :: joinWords (b :: t) = (w ++ [' ']) ++ joinWords (b :: t) by
        simp]
      rw [List.getLast?_append_of_ne_nil (w ++ [' ']) hjoin]
      exact hc

theorem noDoubleSpace_cons_of_ne {c : Char} (hc : c ≠ ' ') (l : List Char) :
    noDoubleSpace (c :: l) = noDoubleSpace l := by
  cases l with
  | nil => rfl
  | cons b t => simp [noDoubleSpace, hc]

theorem noDoubleSpace_cons_tail {a : Char} {l : List Char}
    (h : noDoubleSpace (a :: l) = true) : noDoubleSpace l = true := by
  cases l with
  | nil => rfl
  | cons b t =>
    simp only [noDoubleSpace, Bool.and_eq_true] at h
    exact h.2

theorem space_of_isPySpace_false {c : Char} (h : isPySpace c = false) : c ≠ ' ' := by
  intro hc
  subst hc
  exact absurd h (by decide)

theorem noDoubleSpace_word_append {w : List Char}
    (hw : ∀ c ∈ w, isPySpace c = false) (s : List Char) :
    noDoubleSpace (w ++ s) = noDoubleSpace s := by
  induction w with
  | nil => rfl
  | cons c w' ih =>
    have hc : c ≠ ' ' := space_of_isPySpace_false (hw c (List.mem_cons_self c w'))
    rw [List.cons_append, noDoubleSpace_cons_of_ne hc,
      ih (fun d hd => hw d (List.mem_cons_of_mem c hd))]

theorem noDoubleSpace_joinWords : ∀ ws : List (List Char), GoodWords ws →
    noDoubleSpace (joinWords ws) = true := by
  intro ws
  induction ws with
  | nil => intro _; rfl
  | cons w rest ih =>
    intro hg
    have hw := hg w (List.mem_cons_self w rest)
    have hrest : GoodWords rest := fun u hu => hg u (List.mem_cons_of_mem w hu)
    cases rest with
    | nil =>
      show noDoubleSpace (joinWords [w]) = true
      have : joinWords [w] = w ++ [] := by simp [joinWords]
      rw [this, noDoubleSpace_word_append hw.2]
      rfl
    | cons b t =>
      rw [joinWords_cons_of_ne_nil w (by simp), noDoubleSpace_word_append hw.2]
      obtain ⟨a, l, heq, ha⟩ := joinWords_cons_shape hrest
      rw [heq]
      have ha' : a ≠ ' ' := space_of_isPySpace_false ha
      have : noDoubleSpace (' ' :: a :: l) = noDoubleSpace (a :: l) := by
        simp [noDoubleSpace, ha']
      rw [this, ← heq]
      exact ih hrest

theorem replaceNNN_eq_self : ∀ {s : List Char}, '\n' ∉ s → replaceNNN s = s
  | [], _ => rfl
  | [_], _ => rfl
  | [_, _], _ => rfl
  | a :: b :: c :: rest, h => by
    have ha : a ≠ '\n' := fun hc => h (hc ▸ List.mem_cons_self a _)
    show (if a = '\n' ∧ b = '\n' ∧ c = '\n' then ' ' :: replaceNNN rest
      else a :: replaceNNN (b :: c :: rest)) = a :: b :: c :: rest
    rw [if_neg (fun hc => ha hc.1)]
    exact congrArg (a :: ·)
      (replaceNNN_eq_self (fun hm => h (List.mem_cons_of_mem a hm)))

theorem replaceTT_eq_self : ∀ {s : List Char}, '\t' ∉ s → replaceTT s = s
  | [], _ => rfl
  | [_], _ => rfl
  | a :: b :: rest, h => by
    have ha : a ≠ '\t' := fun hc => h (hc ▸ List.mem_cons_self a _)
    show (if a = '\t' ∧ b = '\t' then ' ' :: replaceTT rest
      else a :: replaceTT (b :: rest)) = a :: b :: rest
    rw [if_neg (fun hc => ha hc.1)]
    exact congrArg (a :: ·)
      (replaceTT_eq_self (fun hm => h (List.mem_cons_of_mem a hm)))

theorem replaceSS_eq_self : ∀ {s : List Char}, noDoubleSpace s = true →
    replaceSS s = s
  | [], _ => rfl
  | [_], _ => rfl
  | a :: b :: rest, h => by
    have hab : ¬(a = ' ' ∧ b = ' ') := by
      simp only [noDoubleSpace, Bool.and_eq_true, Bool.not_eq_true',
        Bool.and_eq_false_iff, beq_eq_false_iff_ne] at h
      rcases h.1 with h' | h'
      · exact fun hc => h' hc.1
      · exact fun hc => h' hc.2
    show (if a = ' ' ∧ b = ' ' then ' ' :: replaceSS rest
      else a :: replaceSS (b :: rest)) = a :: b :: rest
    rw [if_neg hab]
    exact congrArg (a :: ·) (replaceSS_eq_self (noDoubleSpace_cons_tail h))

theorem stripLeft_cons_of_not {a : Char} (l : List Char)
    (h : isPySpace a = false) : stripLeft (a :: l) = a :: l := by
  simp [stripLeft, h]

theorem strip_eq_self {s : List Char} {a b : Char}
    (h1 : s.head? = some a) (h2 : isPySpace a = false)
    (h3 : s.getLast? = some b) (h4 : isPySpace b = false) : strip s = s := by
  have hl : stripLeft s = s := by
    cases s with
    | nil => cases h1
    | cons c t =>
      have : c = a := by simpa using h1
      subst this
      exact stripLeft_cons_of_not t h2
  have hl2 : stripLeft s.reverse = s.reverse := by
    have hrev : s.reverse.head? = some b := by rw [List.head?_reverse]; exact h3
    cases hr : s.reverse with
    | nil => rw [hr] at hrev; cases hrev
    | cons c t =>
      rw [hr] at hrev
      have : c = b := by simpa using hrev
      subst this
      exact stripLeft_cons_of_not t h4
  rw [strip, hl, hl2, List.reverse_reverse]

theorem sentencePunct_not_space {c : Char} (h : sentencePunct c = true) :
    isPySpace c = false := by
  simp only [sentencePunct, Bool.or_eq_true, beq_iff_eq] at h
  rcases h with (h | h) | h <;> subst h <;> decide

theorem exists_of_endsPunct {s : List Char} (h : endsPunct s = true) :
    ∃ c, s.getLast? = some c ∧ sentencePunct c = true := by
  have hne : s.getLast? ≠ none := by
    intro hn
    unfold endsPunct at h
    rw [hn] at h
    cases h
  obtain ⟨c, hc⟩ := Option.ne_none_iff_exists'.mp hne
  refine ⟨c, hc, ?_⟩
  unfold endsPunct at h
  rw [hc] at h
  exact h

/-- The three noise-pattern replacements leave a joined good word list
unchanged: it contains no newline, no tab and no two adjacent spaces. -/
theorem replace_joinWords {ws : List (List Char)} (hg : GoodWords ws) :
    replaceSS (replaceTT (replaceNNN (joinWords ws))) = joinWords ws := by
  have hnl : '\n' ∉ joinWords ws := by
    intro hm
    rcases mem_joinWords ws hm with h' | ⟨w, hw, hc⟩
    · exact absurd h' (by decide)
    · exact absurd ((hg w hw).2 _ hc) (by decide)
  have hnt : '\t' ∉ joinWords ws := by
    intro hm
    rcases mem_joinWords ws hm with h' | ⟨w, hw, hc⟩
    · exact absurd h' (by decide)
    · exact absurd ((hg w hw).2 _ hc) (by decide)
  rw [replaceNNN_eq_self hnl, replaceTT_eq_self hnt,
    replaceSS_eq_self (noDoubleSpace_joinWords ws hg)]

/-- Appending one non-space character to a joined good word list yields
a joined good word list (the character joins the last word). -/
theorem joinWords_append_last {d : Char} (hd : isPySpace d = false) :
    ∀ ws : List (List Char), GoodWords ws → ws ≠ [] →
      ∃ ws2, GoodWords ws2 ∧ ws2 ≠ [] ∧ joinWords ws ++ [d] = joinWords ws2 := by
  intro ws
  induction ws with
  | nil => intro _ hne; cases hne rfl
  | cons w rest ih =>
    intro hg _
    have hw := hg w (List.mem_cons_self w rest)
    have hrest : GoodWords rest := fun u hu => hg u (List.mem_cons_of_mem w hu)
    cases rest with
    | nil =>
      refine ⟨[w ++ [d]], ?_, by simp, by simp [joinWords]⟩
      intro u hu
      rcases List.mem_singleton.mp hu with rfl
      refine ⟨by simp, ?_⟩
      intro c hc
      rcases List.mem_append.mp hc with h' | h'
      · exact hw.2 c h'
      · rcases List.mem_singleton.mp h' with rfl; exact hd
    | cons b t =>
      obtain ⟨ws2, hg2, hne2, heq2⟩ := ih hrest (by simp)
      refine ⟨w :: ws2, ?_, by simp, ?_⟩
      · intro u hu
        rcases List.mem_cons.mp hu with rfl | hu
        · exact hw
        · exact hg2 u hu
      · rw [joinWords_cons_of_ne_nil w (by simp),
          joinWords_cons_of_ne_nil w hne2, ← heq2]
        simp

theorem optimizeContent_of_all_space {s : List Char}
    (h : ∀ c ∈ s, isPySpace c = true) : optimizeContent s = [] := by
  have h0 : splitWs s = [] := (splitWs_eq_nil_iff s).mpr h
  simp only [optimizeContent, h0]
  rfl

/-- On content with at least one non-space character the optimizer output
is a joined good word list ending in sentence punctuation. -/
theorem optimizeContent_normal {s : List Char}
    (h : ¬ ∀ c ∈ s, isPySpace c = true) :
    ∃ ws, GoodWords ws ∧ ws ≠ [] ∧ optimizeContent s = joinWords ws ∧
      endsPunct (optimizeContent s) = true := by
  have hg : GoodWords (splitWs s) := goodWords_splitWs s
  have hsp : splitWs s ≠ [] := by
    rw [Ne, splitWs_eq_nil_iff]; exact h
  have hjn : joinWords (splitWs s) ≠ [] := joinWords_ne_nil hg hsp
  obtain ⟨w, t, hwt⟩ := List.exists_cons_of_ne_nil hsp
  obtain ⟨a, l, hshape, ha⟩ := joinWords_cons_shape (hwt ▸ hg)
  rw [← hwt] at hshape
  obtain ⟨b, hb, hbs⟩ := joinWords_getLast? hg hsp
  have hopt : optimizeContent s =
      strip (if joinWords (splitWs s) ≠ [] ∧ endsPunct (joinWords (splitWs s)) = false
        then joinWords (splitWs s) ++ ['.'] else joinWords (splitWs s)) := by
    simp only [optimizeContent, replace_joinWords hg]
  by_cases hp : endsPunct (joinWords (splitWs s)) = true
  · rw [hopt, if_neg (by simp [hp])]
    have hstrip : strip (joinWords (splitWs s)) = joinWords (splitWs s) :=
      strip_eq_self (by rw [hshape]; rfl) ha hb hbs
    rw [hstrip]
    exact ⟨splitWs s, hg, hsp, rfl, hp⟩
  · have hp' : endsPunct (joinWords (splitWs s)) = false :=
      Bool.not_eq_true _ ▸ eq_false_of_ne_true hp
    rw [hopt, if_pos ⟨hjn, hp'⟩]
    have hlast : (joinWords (splitWs s) ++ ['.']).getLast? = some '.' :=
      List.getLast?_concat _
    have hhead : (joinWords (splitWs s) ++ ['.']).head? = some a := by
      rw [hshape]; rfl
    have hstrip : strip (joinWords (splitWs s) ++ ['.'])
        = joinWords (splitWs s) ++ ['.'] :=
      strip_eq_self hhead ha hlast (by decide)
    rw [hstrip]
    obtain ⟨ws2, hg2, hne2, heq2⟩ :=
      joinWords_append_last (by decide : isPySpace '.' = false) (splitWs s) hg hsp
    exact ⟨ws2, hg2, hne2, heq2, by simp [endsPunct, hlast]; rfl⟩

/-- A joined good word list already ending in sentence punctuation is a
fixed point of the optimizer. -/
theorem optimizeContent_fixed {ws : List (List Char)} (hg : GoodWords ws)
    (hne : ws ≠ []) (hp : endsPunct (joinWords ws) = true) :
    optimizeContent (joinWords ws) = joinWords ws := by
  have hround : splitWs (joinWords ws) = ws := splitWs_joinWords ws hg
  have hopt : optimizeContent (joinWords ws) =
      strip (if joinWords ws ≠ [] ∧ endsPunct (joinWords ws) = false
        then joinWords ws ++ ['.'] else joinWords ws) := by
    simp only [optimizeContent, hround, replace_joinWords hg]
  rw [hopt, if_neg (by simp [hp])]
  obtain ⟨w, t, hwt⟩ := List.exists_cons_of_ne_nil hne
  obtain ⟨a, l, hshape, ha⟩ := joinWords_cons_shape (hwt ▸ hg)
  rw [← hwt] at hshape
  obtain ⟨c, hc, hcs⟩ := exists_of_endsPunct hp
  exact strip_eq_self (by rw [hshape]; rfl) ha hc (sentencePunct_not_space hcs)

/-- Idempotence of `_optimize_content`. -/
theorem optimizeContent_idem (s : List Char) :
    optimizeContent (optimizeContent s) = optimizeContent s := by
  by_cases h : ∀ c ∈ s, isPySpace c = true
  · rw [optimizeContent_of_all_space h]
    exact optimizeContent_of_all_space (by simp)
  · obtain ⟨ws, hg, hne, heq, hp⟩ := optimizeContent_normal h
    rw [heq] at hp ⊢
    exact optimizeContent_fixed hg hne hp

theorem pyTake_coe (s : List Char) (n : Nat) : pyTake s (n : Int) = s.take n := by
  simp [pyTake]

theorem createSummary_length {content : List Char} {max : Nat} (h3 : 3 ≤ max) :
    (createSummary content max).length ≤ max := by
  simp only [createSummary]
  split
  · rw [pyTake_coe]
    simp only [List.length_take]
    omega
  · split
    · next h' =>
      have hcast : ((max : Int) - 3) = ((max - 3 : Nat) : Int) := by omega
      rw [hcast, pyTake_coe]
      simp only [List.length_append, List.length_take, List.length_cons,
        List.length_nil]
      omega
    · next h' => omega

theorem summarizer_length_bound (cfg : Settings) (data : ParsedData)
    (h3 : 3 ≤ cfg.max_summary_length)
    (hw : cfg.max_summary_length < (splitWs data.content).length) :
    (summarizerProcess cfg data).length ≤ cfg.max_summary_length := by
  simp only [summarizerProcess]
  split
  · next hc =>
    rw [hc] at hw
    rw [show splitWs ([] : List Char) = [] from rfl] at hw
    simp at hw
  · split
    · next hle => omega
    · exact createSummary_length h3

theorem splitDot_ne_nil : ∀ s : List Char, splitDot s ≠ []
  | [] => by simp [splitDot]
  | c :: rest => by
    by_cases hc : c = '.'
    · simp [splitDot, hc]
    · simp only [splitDot, if_neg hc]
      cases h : splitDot rest <;> simp

theorem length_splitDot_le_one_iff : ∀ s : List Char,
    ((splitDot s).length ≤ 1 ↔ '.' ∉ s)
  | [] => by simp [splitDot]
  | c :: rest => by
    by_cases hc : c = '.'
    · subst hc
      simp only [splitDot, if_pos rfl]
      constructor
      · intro h
        exfalso
        have : splitDot rest = [] := by
          simpa using List.length_eq_zero.mp (by simpa using h)
        exact splitDot_ne_nil rest this
      · intro h
        exact absurd (List.mem_cons_self '.' rest) h
    · simp only [splitDot, if_neg hc]
      cases h : splitDot rest with
      | nil => exact absurd h (splitDot_ne_nil rest)
      | cons w ws =>
        have ih := length_splitDot_le_one_iff rest
        rw [h] at ih
        simp only [List.length_cons] at ih ⊢
        rw [List.mem_cons]
        constructor
        · intro h' hmem
          rcases hmem with h'' | h''
          · exact hc h''.symm
          · exact (ih.mp h') h''
        · intro h'
          exact ih.mpr fun hm => h' (Or.inr hm)

theorem headD_splitDot : ∀ s : List Char,
    (splitDot s).headD [] = s.takeWhile (fun c => !(c == '.'))
  | [] => rfl
  | c :: rest => by
    by_cases hc : c = '.'
    · subst hc
      simp [splitDot, List.takeWhile_cons]
    · simp only [splitDot, if_neg hc]
      cases h : splitDot rest with
      | nil => exact absurd h (splitDot_ne_nil rest)
      | cons w ws =>
        have ih := headD_splitDot rest
        rw [h] at ih
        simp only [List.headD_cons] at ih ⊢
        rw [List.takeWhile_cons]
        rw [if_pos (by simpa using hc)]
        exact congrArg (c :: ·) ih

/-- With a successful parse, the whole pipeline reduces to the success
response built from the threaded stage outputs. -/
theorem distribute_createAgents_ok (cfg : Settings) (req : ProcessingRequest)
    (parsed : ParsedData)
    (hparse : dataParserProcess cfg req.content = .ok parsed) :
    distribute (createAgents cfg) req =
      ({ request_id := req.request_id,
         processed_content := optimizerProcess cfg (summarizerProcess cfg parsed),
         summary := summarizerProcess cfg parsed }, [0, 1, 2, 3, 4, 5]) := by
  simp [distribute, createAgents, hparse, loggerProcess]

/-- When validation does not fire, `run` returns the pipeline result as a
value. -/
theorem run_eq_distribute (cfg : Settings) (content rid : List Char)
    (h : ¬(cfg.enable_input_validation = true ∧ content = [])) :
    run cfg content rid
      = (.ok (distribute (createAgents cfg)
            { content := content, request_id := rid }).1,
         (distribute (createAgents cfg)
            { content := content, request_id := rid }).2) := by
  simp [run, h]

theorem sizeErrorMessage_ne_nil (cfg : Settings) : sizeErrorMessage cfg ≠ [] := by
  intro h
  rw [sizeErrorMessage] at h
  have h1 := (List.append_eq_nil.mp h).1
  have h2 := (List.append_eq_nil.mp h1).1
  exact absurd h2 (by decide)

/-- The parser fails only with the size-exceeded message. -/
theorem dataParserProcess_error {cfg : Settings} {content e : List Char}
    (h : dataParserProcess cfg content = .error e) :
    e = sizeErrorMessage cfg := by
  by_cases hl : cfg.max_input_size < content.length
  · rw [dataParserProcess, if_pos hl] at h
    injection h with h'
    exact h'.symm
  · rw [dataParserProcess, if_neg hl] at h
    cases h

/-- The optimizer output either ends in sentence punctuation or is empty
because the input was all whitespace. -/
theorem optimizer_shape (s : List Char) :
    endsPunct (optimizeContent s) = true ∨
      (optimizeContent s = [] ∧ ∀ c ∈ s, isPySpace c = true) := by
  by_cases hall : ∀ c ∈ s, isPySpace c = true
  · right
    exact ⟨optimizeContent_of_all_space hall, hall⟩
  · left
    obtain ⟨ws, -, -, -, hp⟩ := optimizeContent_normal hall
    exact hp

/-- C1 counterexample: the claim as stated fails on the default
configuration: the non-empty in-bounds input `" "` runs successfully but
its `processed_content` is empty, ending in no sentence punctuation; and
a single 101-character word runs successfully with a `summary` of length
101, exceeding the configured maximum of 100. -/
theorem C1_counterexample :
    (" ".data ≠ [] ∧ " ".data.length ≤ settings.max_input_size ∧
      ((run settings " ".data "r".data).1.map
          fun r => (r.success, endsPunct r.processed_content)) = .ok (true, false)) ∧
    (List.replicate 101 'a' ≠ [] ∧
      (List.replicate 101 'a').length ≤ settings.max_input_size ∧
      ((run settings (List.replicate 101 'a') "r".data).1.map
          fun r => (r.success, r.summary.length)) = .ok (true, 101) ∧
      settings.max_summary_length < 101) :=
  ⟨⟨by decide, by decide, rfl⟩, ⟨by decide, by decide, rfl, by decide⟩⟩

/-- C1 amended: for every non-empty input within the configured maximum
input size, with validation and optimization enabled (the default
configuration), `run` returns a response with `success = true`; the
response's `processed_content` ends in one of `.`, `!`, `?` unless the
summarizer output is all whitespace, in which case it is empty; and
whenever the input's whitespace-delimited word count exceeds the
configured maximum summary length, the summary's length is at most that
maximum. -/
theorem C1_run_success_shape (content rid : List Char) (hne : content ≠ [])
    (hlen : content.length ≤ settings.max_input_size) :
    ∃ r, (run settings content rid).1 = .ok r ∧ r.success = true ∧
      (endsPunct r.processed_content = true ∨
        (r.processed_content = [] ∧ ∀ c ∈ r.summary, isPySpace c = true)) ∧
      (settings.max_summary_length < (splitWs content).length →
        r.summary.length ≤ settings.max_summary_length) := by
  have hval : ¬(settings.enable_input_validation = true ∧ content = []) :=
    fun h => hne h.2
  have hparse : dataParserProcess settings content =
      .ok { content := content, length := content.length,
            word_count := (splitWs content).length } := by
    rw [dataParserProcess, if_neg (Nat.not_lt.mpr hlen)]
  have hd := distribute_createAgents_ok settings
    { content := content, request_id := rid }
    { content := content, length := content.length,
      word_count := (splitWs content).length }
    hparse
  refine ⟨ProcessingResponse.mk rid
      (optimizerProcess settings (summarizerProcess settings
        (ParsedData.mk content content.length (splitWs content).length)))
      (summarizerProcess settings
        (ParsedData.mk content content.length (splitWs content).length))
      true none, ?_, rfl, ?_, ?_⟩
  · rw [run_eq_distribute settings content rid hval, hd]
  · exact optimizer_shape (summarizerProcess settings
      (ParsedData.mk content content.length (splitWs content).length))
  · intro hw
    exact summarizer_length_bound settings
      (ParsedData.mk content content.length (splitWs content).length)
      (by decide) hw

theorem C1_run_success_shape_witness :
    ("Hello.".data ≠ [] ∧ "Hello.".data.length ≤ settings.max_input_size) ∧
      ∃ r, (run settings "Hello.".data "r".data).1 = .ok r ∧ r.success = true ∧
        (endsPunct r.processed_content = true ∨
          (r.processed_content = [] ∧ ∀ c ∈ r.summary, isPySpace c = true)) ∧
        (settings.max_summary_length < (splitWs "Hello.".data).length →
          r.summary.length ≤ settings.max_summary_length) :=
  ⟨⟨by decide, by decide⟩,
    C1_run_success_shape "Hello.".data "r".data (by decide) (by decide)⟩

/-- C2 counterexample: the response of a successful run on the
whitespace-only input `" "` has `success = true` with empty
`processed_content` and no error message, so neither arm of the claimed
exclusive invariant holds. -/
theorem C2_counterexample :
    ((distribute (createAgents settings)
        { content := " ".data, request_id := "r".data }).1.success = true ∧
      (distribute (createAgents settings)
        { content := " ".data, request_id := "r".data }).1.processed_content
          = []) ∧
    ¬(((distribute (createAgents settings)
          { content := " ".data, request_id := "r".data }).1.success = true ∧
        (distribute (createAgents settings)
          { content := " ".data, request_id := "r".data }).1.processed_content
            ≠ []) ∨
      ((distribute (createAgents settings)
          { content := " ".data, request_id := "r".data }).1.success = false ∧
        (distribute (createAgents settings)
          { content := " ".data, request_id := "r".data }).1.error_message
            ≠ none)) := by
  decide

/-- C2 amended: every response produced by the pipeline satisfies exactly
one of: `success = true` with no `error_message`, or `success = false`
with a populated (non-empty) `error_message`; `processed_content` may be
empty on success (whitespace-only content). -/
theorem C2_response_exclusive (cfg : Settings) (req : ProcessingRequest) :
    ((distribute (createAgents cfg) req).1.success = true ∧
        (distribute (createAgents cfg) req).1.error_message = none) ∨
      ((distribute (createAgents cfg) req).1.success = false ∧
        ∃ m, (distribute (createAgents cfg) req).1.error_message = some m ∧
          m ≠ []) := by
  cases hp : dataParserProcess cfg req.content with
  | ok parsed =>
    left
    rw [distribute_createAgents_ok cfg req parsed hp]
    exact ⟨rfl, rfl⟩
  | error e =>
    right
    have hd : distribute (createAgents cfg) req
        = (failureResponse req.request_id e, [0]) := by
      simp [distribute, createAgents, hp]
    rw [hd]
    exact ⟨rfl, e, rfl, dataParserProcess_error hp ▸ sizeErrorMessage_ne_nil cfg⟩

/-- C6: the Optimizer transformation is idempotent: with optimization
enabled, applying the optimizer stage twice to any text yields the same
result as applying it once. -/
theorem C6_optimizer_idempotent (cfg : Settings)
    (h : cfg.enable_optimization = true) (s : List Char) :
    optimizerProcess cfg (optimizerProcess cfg s) = optimizerProcess cfg s := by
  simp [optimizerProcess, h, optimizeContent_idem]

theorem C6_optimizer_idempotent_witness :
    settings.enable_optimization = true ∧
      optimizerProcess settings (optimizerProcess settings "a  b".data)
        = optimizerProcess settings "a  b".data :=
  ⟨rfl, C6_optimizer_idempotent settings rfl "a  b".data⟩

/-- C9: on the input `"Hello   world.\n\n\n"` with the default
configuration (optimization enabled) the pipeline succeeds and produces
`"Hello world."` as the response's `processed_content`, for any request
id. -/
theorem C9_hello_world (rid : List Char) :
    ((run settings helloInput rid).1.map fun r => r.processed_content)
        = .ok "Hello world.".data ∧
      ((run settings helloInput rid).1.map fun r => r.success) = .ok true :=
  ⟨rfl, rfl⟩

/-- C3: `run` signals an error to its caller exactly when validation is
enabled and the content is empty, and then no stage runs (empty trace)
and no request envelope is built; in every other case the pipeline's
outcome — including every post-validation failure — is returned as a
response value. -/
theorem C3_run_raises_only_for_validation (cfg : Settings)
    (content rid : List Char) :
    (cfg.enable_input_validation = true ∧ content = [] →
        run cfg content rid = (.error validationErrorMessage, [])) ∧
      (¬(cfg.enable_input_validation = true ∧ content = []) →
        (run cfg content rid).1
          = .ok (distribute (createAgents cfg)
              { content := content, request_id := rid }).1) := by
  constructor
  · intro h
    simp [run, h]
  · intro h
    simp [run, h]

theorem C3_run_raises_only_for_validation_witness :
    run settings [] "r".data = (.error validationErrorMessage, []) :=
  (C3_run_raises_only_for_validation settings [] "r".data).1 ⟨rfl, rfl⟩

/-- C4: any input that passes the non-empty validation but is longer than
the configured maximum input size yields a returned response with
`success = false`, the size-exceeded error message (which contains
"too large"), and empty `processed_content` and `summary`. -/
theorem C4_input_too_large (cfg : Settings) (content rid : List Char)
    (hne : content ≠ []) (hlen : cfg.max_input_size < content.length) :
    ∃ r, (run cfg content rid).1 = .ok r ∧ r.success = false ∧
      r.error_message = some (sizeErrorMessage cfg) ∧
      (∃ l t, sizeErrorMessage cfg = l ++ "too large".data ++ t) ∧
      r.processed_content = [] ∧ r.summary = [] := by
  refine ⟨failureResponse rid (sizeErrorMessage cfg), ?_, rfl, rfl, ?_, rfl, rfl⟩
  · have hval : ¬(cfg.enable_input_validation = true ∧ content = []) :=
      fun h => hne h.2
    have hparse : dataParserProcess cfg content = .error (sizeErrorMessage cfg) := by
      simp [dataParserProcess, hlen]
    simp [run, if_neg hval, distribute, createAgents, hparse]
  · refine ⟨"Data ".data, ". Maximum ".data ++ (toString cfg.max_input_size).data
      ++ " characters allowed.".data, ?_⟩
    have hconcat : "Data ".data ++ "too large".data ++ ". Maximum ".data
        = "Data too large. Maximum ".data := by decide
    rw [sizeErrorMessage, ← hconcat]
    simp [List.append_assoc]

theorem C4_input_too_large_witness :
    ("abc".data ≠ [] ∧ tinySettings.max_input_size < "abc".data.length) ∧
      ∃ r, (run tinySettings "abc".data "r".data).1 = .ok r ∧ r.success = false ∧
        r.error_message = some (sizeErrorMessage tinySettings) ∧
        (∃ l t, sizeErrorMessage tinySettings = l ++ "too large".data ++ t) ∧
        r.processed_content = [] ∧ r.summary = [] :=
  ⟨⟨by decide, by decide⟩,
    C4_input_too_large tinySettings "abc".data "r".data (by decide) (by decide)⟩

/-- C5: for any agents and any request, `distribute` invokes a prefix of
the six stages in the fixed order 0..5 (never out of order, never
retrying); the run succeeds exactly when every stage succeeded on its
threaded input — the parser's output feeding the summarizer, the
summarizer's output (the response's `summary`) feeding the optimizer,
whose output is the response's `processed_content` — with all six stages
invoked; and a parser failure stops the pipeline after stage 0 alone. -/
theorem C5_pipeline_order (agents : Agents) (request : ProcessingRequest) :
    (∃ k, 1 ≤ k ∧ k ≤ 6 ∧ (distribute agents request).2 = List.range k) ∧
      ((distribute agents request).1.success = true ↔
        ∃ parsed, agents.parse request.content = .ok parsed ∧
          agents.logParsed (parsedMessage request.request_id) = .ok () ∧
          agents.summarize parsed = .ok (distribute agents request).1.summary ∧
          agents.logSummarized (summarizedMessage request.request_id) = .ok () ∧
          agents.optimize (distribute agents request).1.summary
            = .ok (distribute agents request).1.processed_content ∧
          agents.logCompleted (completedMessage request.request_id) = .ok () ∧
          (distribute agents request).2 = List.range 6) ∧
      (∀ e, agents.parse request.content = .error e →
        distribute agents request = (failureResponse request.request_id e, [0])) := by
  cases hp : agents.parse request.content with
  | error e =>
    have hd : distribute agents request
        = (failureResponse request.request_id e, [0]) := by
      simp [distribute, hp]
    refine ⟨⟨1, by omega, by omega, by rw [hd]; rfl⟩, ?_, ?_⟩
    · constructor
      · intro hs
        rw [hd] at hs
        exact absurd hs (by simp [failureResponse])
      · rintro ⟨p, hp2, -⟩
        exact Except.noConfusion hp2
    · intro e' he'
      injection he' with h'
      rw [hd, h']
  | ok parsed =>
  cases hl1 : agents.logParsed (parsedMessage request.request_id) with
  | error e =>
    have hd : distribute agents request
        = (failureResponse request.request_id e, [0, 1]) := by
      simp [distribute, hp, hl1]
    refine ⟨⟨2, by omega, by omega, by rw [hd]; rfl⟩, ?_, ?_⟩
    · constructor
      · intro hs
        rw [hd] at hs
        exact absurd hs (by simp [failureResponse])
      · rintro ⟨p, hp2, hl1', -⟩
        exact Except.noConfusion hl1'
    · intro e' he'
      exact Except.noConfusion he'
  | ok u1 =>
  cases u1
  cases hs : agents.summarize parsed with
  | error e =>
    have hd : distribute agents request
        = (failureResponse request.request_id e, [0, 1, 2]) := by
      simp [distribute, hp, hl1, hs]
    refine ⟨⟨3, by omega, by omega, by rw [hd]; rfl⟩, ?_, ?_⟩
    · constructor
      · intro hsucc
        rw [hd] at hsucc
        exact absurd hsucc (by simp [failureResponse])
      · rintro ⟨p, hp2, -, hs', -⟩
        injection hp2 with h'
        rw [← h', hs] at hs'
        exact Except.noConfusion hs'
    · intro e' he'
      exact Except.noConfusion he'
  | ok summary =>
  cases hl2 : agents.logSummarized (summarizedMessage request.request_id) with
  | error e =>
    have hd : distribute agents request
        = (failureResponse request.request_id e, [0, 1, 2, 3]) := by
      simp [distribute, hp, hl1, hs, hl2]
    refine ⟨⟨4, by omega, by omega, by rw [hd]; rfl⟩, ?_, ?_⟩
    · constructor
      · intro hsucc
        rw [hd] at hsucc
        exact absurd hsucc (by simp [failureResponse])
      · rintro ⟨p, -, -, -, hl2', -⟩
        exact Except.noConfusion hl2'
    · intro e' he'
      exact Except.noConfusion he'
  | ok u2 =>
  cases u2
  cases ho : agents.optimize summary with
  | error e =>
    have hd : distribute agents request
        = (failureResponse request.request_id e, [0, 1, 2, 3, 4]) := by
      simp [distribute, hp, hl1, hs, hl2, ho]
    refine ⟨⟨5, by omega, by omega, by rw [hd]; rfl⟩, ?_, ?_⟩
    · constructor
      · intro hsucc
        rw [hd] at hsucc
        exact absurd hsucc (by simp [failureResponse])
      · rintro ⟨p, hp2, -, hs', -, ho', -⟩
        injection hp2 with h'
        rw [← h', hs] at hs'
        injection hs' with h''
        rw [hd] at h''
        simp only [failureResponse] at h''
        rw [hd] at ho'
        simp only [failureResponse] at ho'
        rw [← h'', ho] at ho'
        exact Except.noConfusion ho'
    · intro e' he'
      exact Except.noConfusion he'
  | ok optimized =>
  cases hl3 : agents.logCompleted (completedMessage request.request_id) with
  | error e =>
    have hd : distribute agents request
        = (failureResponse request.request_id e, [0, 1, 2, 3, 4, 5]) := by
      simp [distribute, hp, hl1, hs, hl2, ho, hl3]
    refine ⟨⟨6, by omega, by omega, by rw [hd]; rfl⟩, ?_, ?_⟩
    · constructor
      · intro hsucc
        rw [hd] at hsucc
        exact absurd hsucc (by simp [failureResponse])
      · rintro ⟨p, -, -, -, -, -, hl3', -⟩
        exact Except.noConfusion hl3'
    · intro e' he'
      exact Except.noConfusion he'
  | ok u3 =>
    cases u3
    have hd : distribute agents request
        = (ProcessingResponse.mk request.request_id optimized summary true none,
           [0, 1, 2, 3, 4, 5]) := by
      simp [distribute, hp, hl1, hs, hl2, ho, hl3]
    refine ⟨⟨6, by omega, by omega, by rw [hd]; rfl⟩, ?_, ?_⟩
    · constructor
      · intro _
        refine ⟨parsed, rfl, rfl, ?_, rfl, ?_, rfl, by rw [hd]; rfl⟩
        · rw [hd]
          exact hs
        · rw [hd]
          exact ho
      · intro _
        rw [hd]
    · intro e' he'
      exact Except.noConfusion he'

theorem C5_pipeline_order_witness :
    distribute (createAgents tinySettings)
        { content := "abc".data, request_id := "r".data }
      = (failureResponse "r".data (sizeErrorMessage tinySettings), [0]) :=
  (C5_pipeline_order (createAgents tinySettings)
      { content := "abc".data, request_id := "r".data }).2.2
    (sizeErrorMessage tinySettings) rfl

set_option maxRecDepth 8192 in
/-- C7 counterexample: on a 102-word input whose first sentence starts
with a space, the Summarizer does not return the raw content up to the
first `'.'` (it also strips it): the code yields `"a"` where the claim's
description yields `" a"`. -/
theorem C7_counterexample :
    summarizerProcess settings
        (ParsedData.mk c7Input c7Input.length (splitWs c7Input).length)
      ≠ claimSummarize settings c7Input ∧
    summarizerProcess settings
        (ParsedData.mk c7Input c7Input.length (splitWs c7Input).length)
      = "a".data ∧
    claimSummarize settings c7Input = " a".data :=
  ⟨by decide, by decide, by decide⟩

/-- C7 amended: the Summarizer behaves as the claim describes except that
the first-sentence candidate is additionally stripped of surrounding
whitespace before the length test and possible ellipsis truncation
(stated for a configured maximum of at least 3, as the default 100 is). -/
theorem C7_summarizer_amended (cfg : Settings) (data : ParsedData)
    (h3 : 3 ≤ cfg.max_summary_length) :
    summarizerProcess cfg data = amendedSummarize cfg data.content := by
  simp only [summarizerProcess, amendedSummarize]
  by_cases hc : data.content = []
  · simp [hc]
  · simp only [if_neg hc]
    by_cases hwords : (splitWs data.content).length ≤ cfg.max_summary_length
    · simp [hwords]
    · simp only [if_neg hwords]
      simp only [createSummary]
      by_cases hdot : '.' ∈ data.content
      · have hgt : ¬((splitDot data.content).length ≤ 1) := by
          rw [length_splitDot_le_one_iff]
          simpa using hdot
        simp only [if_neg hgt, if_pos hdot]
        rw [headD_splitDot]
        by_cases hbig : cfg.max_summary_length
            < (strip (data.content.takeWhile fun c => !(c == '.'))).length
        · simp only [if_pos hbig]
          have hcast : ((cfg.max_summary_length : Int) - 3)
              = ((cfg.max_summary_length - 3 : Nat) : Int) := by omega
          rw [hcast, pyTake_coe]
        · simp only [if_neg hbig]
      · have hle : (splitDot data.content).length ≤ 1 := by
          rw [length_splitDot_le_one_iff]
          exact hdot
        simp only [if_pos hle, if_neg hdot]
        rw [pyTake_coe]
        have hnot : ¬(cfg.max_summary_length
            < (data.content.take cfg.max_summary_length).length) := by
          simp only [List.length_take]
          omega
        rw [if_neg hnot]

set_option maxRecDepth 8192 in
theorem C7_summarizer_amended_witness :
    3 ≤ settings.max_summary_length ∧
      summarizerProcess settings
          (ParsedData.mk c7Input c7Input.length (splitWs c7Input).length)
        = amendedSummarize settings c7Input :=
  ⟨by decide, C7_summarizer_amended settings
    (ParsedData.mk c7Input c7Input.length (splitWs c7Input).length) (by decide)⟩

/-- C8: with optimization disabled by configuration the Optimizer stage
is the identity, and every successful run's `processed_content` is
byte-for-byte the Summarizer stage's output (the response's `summary`). -/
theorem C8_optimizer_disabled (cfg : Settings)
    (h : cfg.enable_optimization = false) :
    (∀ s, optimizerProcess cfg s = s) ∧
      (∀ content rid r, (run cfg content rid).1 = .ok r → r.success = true →
        r.processed_content = r.summary) := by
  have hid : ∀ s, optimizerProcess cfg s = s := by
    intro s
    simp [optimizerProcess, h]
  refine ⟨hid, ?_⟩
  intro content rid r hok hsucc
  by_cases hval : cfg.enable_input_validation = true ∧ content = []
  · rw [run, if_pos hval] at hok
    exact Except.noConfusion hok
  · rw [run_eq_distribute cfg content rid hval] at hok
    injection hok with h'
    cases hpr : dataParserProcess cfg content with
    | error e =>
      have hd : distribute (createAgents cfg)
          { content := content, request_id := rid }
          = (failureResponse rid e, [0]) := by
        simp [distribute, createAgents, hpr]
      rw [hd] at h'
      rw [← h'] at hsucc
      exact absurd hsucc (by simp [failureResponse])
    | ok parsed =>
      rw [distribute_createAgents_ok cfg _ parsed hpr] at h'
      rw [← h']
      exact hid _

theorem C8_optimizer_disabled_witness :
    noOptSettings.enable_optimization = false ∧
      optimizerProcess noOptSettings "x  y".data = "x  y".data :=
  ⟨rfl, (C8_optimizer_disabled noOptSettings rfl).1 "x  y".data⟩

/-- C10: whenever the input's whitespace-delimited word count strictly
exceeds the configured maximum summary length, the Summarizer's output
has character length at most that maximum (every truncation branch,
including the ellipsis branch, respects the bound). -/
theorem C10_summary_length_bound (data : ParsedData)
    (hw : settings.max_summary_length < (splitWs data.content).length) :
    (summarizerProcess settings data).length ≤ settings.max_summary_length :=
  summarizer_length_bound settings data (by decide) hw

set_option maxRecDepth 8192 in
theorem C10_summary_length_bound_witness :
    settings.max_summary_length < (splitWs c10Input).length ∧
      (summarizerProcess settings
          (ParsedData.mk c10Input c10Input.length (splitWs c10Input).length)).length
        ≤ settings.max_summary_length :=
  ⟨by decide, C10_summary_length_bound
    (ParsedData.mk c10Input c10Input.length (splitWs c10Input).length) (by decide)⟩

end AgentStack
